import Mathlib

/-!
Verification development for the technical-indicator module
`src/technical_indicators.py` of the Stock-Price-Forecasting repository.

The module computes classical technical-analysis indicators with pandas:
simple / weighted / exponential moving averages, the relative strength
index, the stochastic oscillator, Bollinger bands and MACD.

Embedding conventions:
* a pandas `Series` of floats is a `List (Option ℚ)`; `none` models the
  NaN / undefined sentinel, and exact rational arithmetic stands in for
  IEEE doubles;
* a pandas `DataFrame` is an association list from column names to series;
  column selection `df[prices]` is `DFrame.get`, which fails with a
  `KeyError` when the column is absent;
* a Python exception is an `Except PdErr` result: `PdErr.keyError` for a
  pandas `KeyError`, `PdErr.valueError` for a `ValueError`;
* `Series.rolling(window=n, min_periods=m).agg` is `rollingAgg`: at every
  position the aggregate of the non-NaN observations of the trailing
  window of length `n`, or NaN when fewer than `min_periods` observations
  (or none at all) are present — pandas aggregations skip NaN values;
* `Series.ewm(...).mean()` with the default `adjust=True, ignore_na=False`
  is `ewmMean`: at position `i` the average of the non-NaN observations
  `x_j` (`j ≤ i`) weighted by `(1-α)^(i-j)`, NaN until `min_periods`
  non-NaN observations have been seen;
* for the RSI, where the source divides smoothed gains by smoothed losses
  under IEEE semantics (positive/0 = +inf, 0/0 = NaN), values live in the
  extended type `FVal` with IEEE-style infinities and NaN.
-/

/-- A pandas Series of floats: each position holds either a numeric value
or the NaN / undefined sentinel, modelled as `none`. -/
abbrev PSeries := List (Option ℚ)

/-- Elementwise combination of two possibly-NaN values: pandas arithmetic
propagates NaN through `+`, `-`, `*`. -/
def zipOpt (f : ℚ → ℚ → ℚ) : Option ℚ → Option ℚ → Option ℚ
  | some a, some b => some (f a b)
  | _, _ => none

/-- Elementwise division of possibly-NaN values.  A zero denominator
yields the non-numeric IEEE result (±inf or NaN), which this `Option`
model collapses to the undefined sentinel `none`. -/
def divOpt : Option ℚ → Option ℚ → Option ℚ
  | some a, some b => if b = 0 then none else some (a / b)
  | _, _ => none

/-- The trailing window of length `n` ending at position `i` inclusive:
positions `i+1-n` (truncated at 0) through `i`. -/
def windowAt (n : Nat) (xs : PSeries) (i : Nat) : List (Option ℚ) :=
  (xs.take (i + 1)).drop (i + 1 - n)

/-- The non-NaN observations of a window, in order. -/
def obsOf (w : List (Option ℚ)) : List ℚ := w.filterMap id

/-- `Series.rolling(window=n, min_periods=minp)` followed by an
aggregation `f` over the non-NaN observations of each trailing window;
positions with fewer than `min_periods` observations, or with an empty
window, are NaN. -/
def rollingAgg (f : List ℚ → Option ℚ) (n minp : Nat) (xs : PSeries) : PSeries :=
  (List.range xs.length).map (fun i =>
    let o := obsOf (windowAt n xs i)
    if minp ≤ o.length ∧ 0 < o.length then f o else none)

/-- Arithmetic mean of a list of rationals. -/
def meanQ (l : List ℚ) : ℚ := l.sum / (l.length : ℚ)

/-- `rolling(window=n, min_periods=minp).mean()`. -/
def rollingMean (n minp : Nat) (xs : PSeries) : PSeries :=
  rollingAgg (fun o => some (meanQ o)) n minp xs

/-- Maximum of a nonempty list of rationals (`rolling(...).max()` core). -/
def listMax : List ℚ → Option ℚ
  | [] => none
  | a :: t => some (t.foldl max a)

/-- Minimum of a nonempty list of rationals (`rolling(...).min()` core). -/
def listMin : List ℚ → Option ℚ
  | [] => none
  | a :: t => some (t.foldl min a)

/-- `rolling(window=n, min_periods=minp).max()`. -/
def rollingMax (n minp : Nat) (xs : PSeries) : PSeries :=
  rollingAgg listMax n minp xs

/-- `rolling(window=n, min_periods=minp).min()`. -/
def rollingMin (n minp : Nat) (xs : PSeries) : PSeries :=
  rollingAgg listMin n minp xs

/-- `Series.ewm(..., min_periods=minp, adjust=True, ignore_na=False).mean()`
with smoothing factor `a`: at position `i` the weighted average of the
non-NaN observations `x_j` for `j ≤ i`, the weight of `x_j` being
`(1-a)^(i-j)`; NaN until at least `min_periods` non-NaN observations have
appeared. -/
def ewmMean (a : ℚ) (minp : Nat) (xs : PSeries) : PSeries :=
  (List.range xs.length).map (fun i =>
    let num := ((List.range (i + 1)).map (fun j =>
      match xs.getD j none with
      | some v => (1 - a) ^ (i - j) * v
      | none => 0)).sum
    let den := ((List.range (i + 1)).map (fun j =>
      match xs.getD j none with
      | some _ => (1 - a) ^ (i - j)
      | none => (0 : ℚ))).sum
    let cnt := (obsOf (xs.take (i + 1))).length
    if minp ≤ cnt ∧ den ≠ 0 then some (num / den) else none)

/-- A Python exception surfaced by the module: a pandas `KeyError` from a
missing column, or a `ValueError`. -/
inductive PdErr where
  | keyError (col : String)
  | valueError (msg : String)
deriving DecidableEq

/-- A pandas `DataFrame`: named columns over one shared ordered index. -/
structure DFrame where
  cols : List (String × PSeries)

/-- Column selection `df[c]`; raises `KeyError c` when `c` is absent. -/
def DFrame.get (df : DFrame) (c : String) : Except PdErr PSeries :=
  match df.cols.lookup c with
  | some s => Except.ok s
  | none => Except.error (PdErr.keyError c)

/-- `simple_moving_average(df, n, prices)`:
`df[prices].rolling(window=n, min_periods=n).mean()`.
Python defaults: `n=10`, `prices='Close'`. -/
def simple_moving_average (df : DFrame) (n : Nat) (prices : String) :
    Except PdErr PSeries := do
  let s ← df.get prices
  return rollingMean n n s

/-- Cumulative sums of a list (`numpy .cumsum()`). -/
def cumsum : List ℚ → List ℚ
  | [] => []
  | a :: t => a :: (cumsum t).map (fun x => a + x)

/-- The lambda applied to each window inside `weighted_moving_average`:
`x[::-1].cumsum().sum() * 2 / n / (n + 1)`. -/
def revCumsumTrick (n : Nat) (x : List ℚ) : ℚ :=
  (cumsum x.reverse).sum * 2 / (n : ℚ) / ((n : ℚ) + 1)

/-- `weighted_moving_average(df, n, prices)`:
`df[prices].rolling(window=n, min_periods=n).apply(lambda x: x[::-1].cumsum().sum() * 2 / n / (n + 1))`.
Python defaults: `n=10`, `prices='Close'`. -/
def weighted_moving_average (df : DFrame) (n : Nat) (prices : String) :
    Except PdErr PSeries := do
  let s ← df.get prices
  return rollingAgg (fun o => some (revCumsumTrick n o)) n n s

/-- `exponential_moving_average(df, n, prices)`:
`df[prices].ewm(span=n, min_periods=n).mean()`; `span=n` means
`α = 2/(n+1)`.  Column selection happens first; then the `ewm`
constructor validates its parameter and raises
`ValueError("span must satisfy: span >= 1")` for a span below 1.
Python defaults: `n=10`, `prices='Close'`. -/
def exponential_moving_average (df : DFrame) (n : Nat) (prices : String) :
    Except PdErr PSeries := do
  let s ← df.get prices
  if n < 1 then
    Except.error (PdErr.valueError "span must satisfy: span >= 1")
  else
    return ewmMean (2 / ((n : ℚ) + 1)) n s

/-- An IEEE double restricted to the values the RSI pipeline can produce:
a finite (rational) value, a signed infinity, or NaN. -/
inductive FVal where
  | nan : FVal
  | pinf : FVal
  | ninf : FVal
  | fin : ℚ → FVal
deriving DecidableEq

/-- IEEE addition on extended values (NaN propagates, `+inf + -inf = NaN`). -/
def FVal.add : FVal → FVal → FVal
  | nan, _ => nan
  | _, nan => nan
  | pinf, ninf => nan
  | ninf, pinf => nan
  | pinf, _ => pinf
  | _, pinf => pinf
  | ninf, _ => ninf
  | _, ninf => ninf
  | fin a, fin b => fin (a + b)

/-- IEEE negation on extended values. -/
def FVal.neg : FVal → FVal
  | nan => nan
  | pinf => ninf
  | ninf => pinf
  | fin a => fin (-a)

/-- IEEE subtraction on extended values. -/
def FVal.sub (a b : FVal) : FVal := a.add b.neg

/-- IEEE division on extended values (no signed zero: dividing a nonzero
finite value by zero gives the infinity of the numerator's sign, `0/0`
gives NaN, `inf/inf` gives NaN, `finite/inf` gives 0 — the numpy
semantics of dividing pandas float series). -/
def FVal.div : FVal → FVal → FVal
  | nan, _ => nan
  | _, nan => nan
  | pinf, pinf => nan
  | pinf, ninf => nan
  | ninf, pinf => nan
  | ninf, ninf => nan
  | pinf, fin b => if b < 0 then ninf else pinf
  | ninf, fin b => if b < 0 then pinf else ninf
  | fin _, pinf => fin 0
  | fin _, ninf => fin 0
  | fin a, fin b =>
      if b = 0 then (if a = 0 then nan else if 0 < a then pinf else ninf)
      else fin (a / b)

/-- A possibly-NaN rational viewed as an extended IEEE value. -/
def toExt : Option ℚ → FVal
  | none => FVal.nan
  | some q => FVal.fin q

/-- `Series.diff()`: position 0 is NaN, position `i > 0` holds
`x_i - x_(i-1)` (NaN when either operand is NaN). -/
def diffOpt (xs : PSeries) : PSeries :=
  (List.range xs.length).map (fun i =>
    if i = 0 then none
    else zipOpt (fun a b => a - b) (xs.getD i none) (xs.getD (i - 1) none))

/-- `Series.clip(lower=0)`: negative values become 0, NaN stays NaN. -/
def clipLo0 : Option ℚ → Option ℚ
  | none => none
  | some v => some (max v 0)

/-- The smoothed gains of `relative_strength_index`:
`deltas.clip(lower=0).ewm(com=n-1, min_periods=n).mean()`; `com = n-1`
means `α = 1/(1+(n-1))`. -/
def rsiUps (s : PSeries) (n : Nat) : PSeries :=
  ewmMean (1 / (1 + ((n : ℚ) - 1))) n ((diffOpt s).map clipLo0)

/-- The smoothed losses of `relative_strength_index`:
`(-deltas).clip(lower=0).ewm(com=n-1, min_periods=n).mean()`. -/
def rsiDowns (s : PSeries) (n : Nat) : PSeries :=
  ewmMean (1 / (1 + ((n : ℚ) - 1))) n
    (((diffOpt s).map (fun o => o.map (fun v => -v))).map clipLo0)

/-- One position of the RSI output:
`rs = smoothed_ups / smoothed_downs; rsi = 100 - 100 / (1 + rs)`,
computed under IEEE extended semantics. -/
def rsiAt (s : PSeries) (n : Nat) (i : Nat) : FVal :=
  let rs := FVal.div (toExt ((rsiUps s n).getD i none)) (toExt ((rsiDowns s n).getD i none))
  FVal.sub (FVal.fin 100) (FVal.div (FVal.fin 100) (FVal.add (FVal.fin 1) rs))

/-- `relative_strength_index(df, n, prices)` (no default for `n`;
Python default `prices='Close'`). -/
def relative_strength_index (df : DFrame) (n : Nat) (prices : String) :
    Except PdErr (List FVal) := do
  let s ← df.get prices
  return (List.range s.length).map (rsiAt s n)

/-- The `%K` series of `stochastic_oscillator`:
`(df[prices] - lowest_low) / (highest_high - lowest_low) * 100`, with
rolling extrema over `n_k` periods (`min_periods=n_k`); a zero rolling
range gives a non-numeric IEEE value, collapsed to the undefined
sentinel. -/
def stochasticK (s : PSeries) (n_k : Nat) : PSeries :=
  let hh := rollingMax n_k n_k s
  let ll := rollingMin n_k n_k s
  (List.range s.length).map (fun i =>
    (divOpt (zipOpt (fun a b => a - b) (s.getD i none) (ll.getD i none))
            (zipOpt (fun a b => a - b) (hh.getD i none) (ll.getD i none))).map
      (fun v => v * 100))

/-- `stochastic_oscillator(df, n_k, n_d, prices, d_type)`.  Python
defaults: `n_k=14`, `n_d=3`, `prices='Close'`, `d_type='sma'`.
`pd.DataFrame(...)` wraps `%K` in a one-column frame whose column keeps
the name of the series it came from, i.e. `prices`; the `%D` helper
calls `simple_moving_average(stochastic_k, n_d)` etc. use their default
column `'Close'`. -/
def stochastic_oscillator (df : DFrame) (n_k n_d : Nat)
    (prices : String) (d_type : String) : Except PdErr (PSeries × PSeries) := do
  let s ← df.get prices
  let k := stochasticK s n_k
  let kdf : DFrame := ⟨[(prices, k)]⟩
  let d ←
    (if d_type = "sma" then simple_moving_average kdf n_d "Close"
     else if d_type = "wma" then weighted_moving_average kdf n_d "Close"
     else if d_type = "ema" then exponential_moving_average kdf n_d "Close"
     else Except.error (PdErr.valueError "Only SMA, WMA and EMA are available."))
  return (k, d)

/-- The typical price of `bollinger_bands`:
`(df['High'] + df['Low'] + df['Close']) / 3`, elementwise over the shared
index. -/
def typicalPrice (H L C : PSeries) : PSeries :=
  (List.range H.length).map (fun i =>
    (zipOpt (fun a b => a + b)
      (zipOpt (fun a b => a + b) (H.getD i none) (L.getD i none))
      (C.getD i none)).map (fun v => v / 3))

/-- Sample variance with the pandas default `ddof=1`:
`Σ (x - mean)² / (count - 1)`. -/
def sampleVar (l : List ℚ) : ℚ :=
  ((l.map (fun x => (x - meanQ l) ^ 2)).sum) / ((l.length : ℚ) - 1)

/-- `rolling(window=n, min_periods=minp).std()`: the square root of the
sample variance of the window's observations; NaN when fewer than
`min_periods` observations or fewer than two observations (the `ddof=1`
denominator is then zero). -/
noncomputable def rollingStd (n minp : Nat) (xs : PSeries) : List (Option ℝ) :=
  (List.range xs.length).map (fun i =>
    let o := obsOf (windowAt n xs i)
    if minp ≤ o.length ∧ 2 ≤ o.length then some (Real.sqrt ((sampleVar o : ℚ) : ℝ))
    else none)

/-- The rolling mean of the typical price (the Bollinger center line). -/
def bollCenter (df : DFrame) (n : Nat) : Except PdErr PSeries := do
  let H ← df.get "High"
  let L ← df.get "Low"
  let C ← df.get "Close"
  return rollingMean n n (typicalPrice H L C)

/-- The rolling sample standard deviation of the typical price (the
Bollinger spread). -/
noncomputable def bollSpread (df : DFrame) (n : Nat) :
    Except PdErr (List (Option ℝ)) := do
  let H ← df.get "High"
  let L ← df.get "Low"
  let C ← df.get "Close"
  return rollingStd n n (typicalPrice H L C)

/-- `bollinger_bands(df, n, m)`: center `sma` and spread `sigma` over the
typical price, returning `(sma - m * sigma, sma + m * sigma)` — the lower
band first.  Python defaults: `n=20`, `m=2.0`. -/
noncomputable def bollinger_bands (df : DFrame) (n : Nat) (m : ℚ) :
    Except PdErr (List (Option ℝ) × List (Option ℝ)) := do
  let H ← df.get "High"
  let L ← df.get "Low"
  let C ← df.get "Close"
  let tp := typicalPrice H L C
  let sma := rollingMean n n tp
  let sigma := rollingStd n n tp
  let lower := (List.range tp.length).map (fun i =>
    match sma.getD i none, sigma.getD i none with
    | some c, some sd => some ((c : ℝ) - (m : ℝ) * sd)
    | _, _ => none)
  let upper := (List.range tp.length).map (fun i =>
    match sma.getD i none, sigma.getD i none with
    | some c, some sd => some ((c : ℝ) + (m : ℝ) * sd)
    | _, _ => none)
  return (lower, upper)

/-- `moving_average_convergence_divergence(df, n_fast, n_slow, n_signal)`:
`macd = EMA(n_fast) - EMA(n_slow)` over `df['Close']` (the EMA helper's
default column), `macd_signal = macd.ewm(span=n_signal,
min_periods=n_signal).mean()`, `macd_difference = macd - macd_signal`;
returns `(macd, macd_signal, macd_difference)`.  Python defaults:
`n_fast=12`, `n_slow=26`, `n_signal=9`. -/
def moving_average_convergence_divergence (df : DFrame)
    (n_fast n_slow n_signal : Nat) :
    Except PdErr (PSeries × PSeries × PSeries) := do
  let emaFast ← exponential_moving_average df n_fast "Close"
  let emaSlow ← exponential_moving_average df n_slow "Close"
  let macd := (List.range emaFast.length).map (fun i =>
    zipOpt (fun a b => a - b) (emaFast.getD i none) (emaSlow.getD i none))
  let macdSignal := ewmMean (2 / ((n_signal : ℚ) + 1)) n_signal macd
  let macdDifference := (List.range macd.length).map (fun i =>
    zipOpt (fun a b => a - b) (macd.getD i none) (macdSignal.getD i none))
  return (macd, macdSignal, macdDifference)

/-! ### Generic helper lemmas -/

theorem getD_map_range {α : Type} (f : Nat → α) (d : α) (l i : Nat) (h : i < l) :
    ((List.range l).map f).getD i d = f i := by
  simp [List.getD_eq_getElem?_getD, List.getElem?_map, List.getElem?_range, h]

theorem getD_eq_of_length_le {α : Type} (l : List α) (d : α) (i : Nat)
    (h : l.length ≤ i) : l.getD i d = d := by
  simp [List.getD_eq_getElem?_getD, List.getElem?_eq_none h]

theorem windowAt_map_some (n i : Nat) (xs : List ℚ) :
    windowAt n (xs.map some) i = ((xs.take (i + 1)).drop (i + 1 - n)).map some := by
  simp [windowAt, List.map_take, List.map_drop]

theorem obsOf_map_some (l : List ℚ) : obsOf (l.map some) = l := by
  simp [obsOf, List.filterMap_map]

theorem length_slice (xs : List ℚ) (i n : Nat) (hi : i < xs.length) :
    ((xs.take (i + 1)).drop (i + 1 - n)).length = min n (i + 1) := by
  simp only [List.length_drop, List.length_take]
  omega

theorem length_rollingAgg (f : List ℚ → Option ℚ) (n minp : Nat) (xs : PSeries) :
    (rollingAgg f n minp xs).length = xs.length := by
  simp [rollingAgg]

theorem length_ewmMean (a : ℚ) (minp : Nat) (xs : PSeries) :
    (ewmMean a minp xs).length = xs.length := by
  simp [ewmMean]

/-! ### C1: simple moving average -/

/-- C1. For every price table and positive window `n`,
`simple_moving_average` returns a series whose value at each position
`i ≥ n-1` is the arithmetic mean of the `n` most recent observations of
the selected column ending at `i` inclusive, and whose value at each
position `i < n-1` is undefined. -/
theorem sma_matches_mean (df : DFrame) (n : Nat) (p : String) (xs : List ℚ)
    (out : PSeries) (hn : 0 < n)
    (hcol : df.get p = Except.ok (xs.map some))
    (hout : simple_moving_average df n p = Except.ok out) :
    (∀ i, i < xs.length → n - 1 ≤ i →
        out.getD i none = some (((xs.take (i + 1)).drop (i + 1 - n)).sum / (n : ℚ))) ∧
    (∀ i, i < n - 1 → out.getD i none = none) := by
  have hout2 : out = rollingMean n n (xs.map some) := by
    simp only [simple_moving_average, hcol, Bind.bind, Except.bind, pure,
      Except.pure] at hout
    exact (Except.ok.injEq _ _).mp hout |>.symm
  subst hout2
  have hslice : ∀ i, i < xs.length →
      obsOf (windowAt n (xs.map some) i) = (xs.take (i + 1)).drop (i + 1 - n) := by
    intro i _
    rw [windowAt_map_some, obsOf_map_some]
  constructor
  · intro i hi hni
    have hi2 : i < (xs.map some).length := by simpa using hi
    rw [rollingMean, rollingAgg, getD_map_range _ _ _ _ hi2]
    simp only [hslice i hi]
    have hlen : ((xs.take (i + 1)).drop (i + 1 - n)).length = n := by
      rw [length_slice xs i n hi]; omega
    rw [if_pos ⟨by omega, by omega⟩]
    simp [meanQ, hlen]
  · intro i hi
    by_cases hlt : i < xs.length
    · have hi2 : i < (xs.map some).length := by simpa using hlt
      rw [rollingMean, rollingAgg, getD_map_range _ _ _ _ hi2]
      simp only [hslice i hlt]
      have hlen : ((xs.take (i + 1)).drop (i + 1 - n)).length = i + 1 := by
        rw [length_slice xs i n hlt]; omega
      rw [if_neg]
      intro hcond
      omega
    · apply getD_eq_of_length_le
      simp [rollingMean, rollingAgg]
      omega

/-- The concrete price series 1..10 of the specification's SMA scenario. -/
def prices10 : List ℚ := [1, 2, 3, 4, 5, 6, 7, 8, 9, 10]

/-- A one-column price table holding `prices10` under `Close`. -/
def df10 : DFrame := ⟨[("Close", prices10.map some)]⟩

/-- The SMA output on `df10` with window 3. -/
def sma10 : PSeries := rollingMean 3 3 (prices10.map some)

/-- C1 witness: on prices 1..10 with `n = 3` the SMA is 2 at index 2,
9 at index 9, and undefined at indices 0 and 1. -/
theorem sma_matches_mean_witness :
    simple_moving_average df10 3 "Close" = Except.ok sma10 ∧
    sma10.getD 2 none = some 2 ∧ sma10.getD 9 none = some 9 ∧
    sma10.getD 0 none = none ∧ sma10.getD 1 none = none := by
  have h := sma_matches_mean df10 3 "Close" prices10 sma10 (by decide) rfl rfl
  refine ⟨rfl, ?_, ?_, h.2 0 (by decide), h.2 1 (by decide)⟩
  · rw [h.1 2 (by decide) (by decide)]; norm_num [prices10]
  · rw [h.1 9 (by decide) (by decide)]; norm_num [prices10]

/-! ### C2: the reversed-cumulative-sum trick -/

/-- Sum of a list weighted by descending weights: the head of a list of
length `l` gets weight `l`, the last element weight 1. -/
def dsum : List ℚ → ℚ
  | [] => 0
  | a :: t => ((t.length : ℚ) + 1) * a + dsum t

/-- Sum of a list weighted by ascending weights: position `j` (0-based)
gets weight `j + 1`. -/
def wsum : List ℚ → ℚ
  | [] => 0
  | a :: t => a + t.sum + wsum t

theorem length_cumsum (l : List ℚ) : (cumsum l).length = l.length := by
  induction l with
  | nil => rfl
  | cons a t ih => simp [cumsum, ih]

theorem sum_map_const_add (a : ℚ) (l : List ℚ) :
    (l.map (fun x => a + x)).sum = (l.length : ℚ) * a + l.sum := by
  induction l with
  | nil => simp
  | cons b t ih =>
    simp only [List.map_cons, List.sum_cons, ih, List.length_cons]
    push_cast
    ring

theorem sum_cumsum (l : List ℚ) : (cumsum l).sum = dsum l := by
  induction l with
  | nil => rfl
  | cons a t ih =>
    simp only [cumsum, dsum, List.sum_cons, sum_map_const_add, length_cumsum, ih]
    ring

theorem dsum_append (l : List ℚ) (a : ℚ) :
    dsum (l ++ [a]) = dsum l + l.sum + a := by
  induction l with
  | nil => simp [dsum]
  | cons b t ih =>
    rw [List.cons_append]
    simp only [dsum]
    rw [ih, List.length_append]
    simp only [List.sum_cons, List.length_cons, List.length_nil]
    push_cast
    ring

theorem dsum_reverse (l : List ℚ) : dsum l.reverse = wsum l := by
  induction l with
  | nil => rfl
  | cons a t ih =>
    rw [List.reverse_cons, dsum_append, ih, List.sum_reverse, wsum]
    ring

theorem sum_getD_range (l : List ℚ) :
    (∑ j ∈ Finset.range l.length, l.getD j 0) = l.sum := by
  induction l with
  | nil => simp
  | cons a t ih =>
    rw [List.length_cons, Finset.sum_range_succ']
    simp only [List.getD_cons_succ, List.getD_cons_zero, ih, List.sum_cons]
    ring

theorem wsum_eq_weighted (l : List ℚ) :
    wsum l = ∑ j ∈ Finset.range l.length, ((j : ℚ) + 1) * l.getD j 0 := by
  induction l with
  | nil => simp [wsum]
  | cons a t ih =>
    rw [wsum, List.length_cons, Finset.sum_range_succ']
    simp only [List.getD_cons_succ, List.getD_cons_zero, Nat.cast_add,
      Nat.cast_one, Nat.cast_zero]
    have hsplit : ∀ j ∈ Finset.range t.length,
        ((j : ℚ) + 1 + 1) * t.getD j 0
          = ((j : ℚ) + 1) * t.getD j 0 + t.getD j 0 := by
      intro j _
      ring
    rw [Finset.sum_congr rfl hsplit, Finset.sum_add_distrib, ← ih, sum_getD_range]
    ring

/-- Modelled from the spec: the standard linear-weights definition
`WMA_i = (Σ_(k<n) (n-k) * x_(i-k)) / (n(n+1)/2)`, expressed over the
window `w = [x_(i-n+1), ..., x_i]`, so that `x_(i-k)` is `w_(n-1-k)`;
weight `n` falls on the most recent observation and weight 1 on the
oldest.  This is the spec-side formula that the source's
reversed-cumulative-sum trick is compared against. -/
def wmaSpecFormula (n : Nat) (w : List ℚ) : ℚ :=
  (∑ k ∈ Finset.range n, ((n : ℚ) - (k : ℚ)) * w.getD (n - 1 - k) 0) /
    ((n : ℚ) * ((n : ℚ) + 1) / 2)

/-- C2. On every window of length `n > 0`, the reversed-cumulative-sum
expression computed by `weighted_moving_average` — the sum of the partial
sums of the reversed window, times `2 / n / (n+1)` — equals the standard
linear-weights weighted moving average. -/
theorem wma_trick_eq_linear_weights (n : Nat) (w : List ℚ)
    (hn : 0 < n) (hw : w.length = n) :
    revCumsumTrick n w = wmaSpecFormula n w := by
  have hrev : (cumsum w.reverse).sum = wsum w := by rw [sum_cumsum, dsum_reverse]
  have hnum : (∑ k ∈ Finset.range n, ((n : ℚ) - (k : ℚ)) * w.getD (n - 1 - k) 0)
      = wsum w := by
    have h1 : ∀ k ∈ Finset.range n, ((n : ℚ) - (k : ℚ)) * w.getD (n - 1 - k) 0
        = (fun (j : ℕ) => ((j : ℚ) + 1) * w.getD j 0) (n - 1 - k) := by
      intro k hk
      have hk2 : k < n := Finset.mem_range.mp hk
      have hc : ((n - 1 - k : ℕ) : ℚ) = (n : ℚ) - 1 - (k : ℚ) := by
        rw [Nat.cast_sub (by omega : k ≤ n - 1), Nat.cast_sub (by omega : 1 ≤ n)]
        push_cast
        ring
      simp only [hc]
      ring
    rw [Finset.sum_congr rfl h1,
      Finset.sum_range_reflect (fun (j : ℕ) => ((j : ℚ) + 1) * w.getD j 0) n]
    rw [wsum_eq_weighted, hw]
  rw [revCumsumTrick, wmaSpecFormula, hrev, hnum]
  have hn0 : (n : ℚ) ≠ 0 := Nat.cast_ne_zero.mpr hn.ne'
  have hn1 : (n : ℚ) + 1 ≠ 0 := by positivity
  field_simp

/-- C2 witness: the trick and the linear-weights formula agree on the
concrete window `[1, 2, 3]` with `n = 3`. -/
theorem wma_trick_witness :
    0 < 3 ∧ ([1, 2, 3] : List ℚ).length = 3 ∧
    revCumsumTrick 3 [1, 2, 3] = wmaSpecFormula 3 [1, 2, 3] :=
  ⟨by decide, by decide, wma_trick_eq_linear_weights 3 [1, 2, 3] (by decide) (by decide)⟩

/-! ### C6: no validation of a non-positive SMA window -/

/-- C6 (code evaluation).  With window `n = 0` — a non-positive, invalid
configuration — `simple_moving_average` signals no error at all: pandas
accepts `window=0` (its validation only rejects negative windows), every
trailing window is then empty, and the function quietly returns an
all-undefined series.  The source performs no parameter validation of its
own, contradicting the specification's demand for a fail-fast
configuration error. -/
theorem sma_zero_window_silently_returns :
    simple_moving_average df10 0 "Close" = Except.ok (List.replicate 10 none) := by
  rfl

/-! ### C5 and C10: stochastic oscillator error behaviour -/

theorem get_error_is_keyError (df : DFrame) (c : String) (e : PdErr)
    (h : df.get c = Except.error e) : e = PdErr.keyError c := by
  unfold DFrame.get at h
  cases hl : df.cols.lookup c with
  | some s => rw [hl] at h; cases h
  | none =>
    rw [hl] at h
    exact ((Except.error.injEq _ _).mp h).symm

theorem sma_no_valueError (df : DFrame) (n : Nat) (p : String) (msg : String) :
    simple_moving_average df n p ≠ Except.error (PdErr.valueError msg) := by
  intro hbad
  unfold simple_moving_average at hbad
  cases h : df.get p with
  | ok s =>
    rw [h] at hbad
    simp [Bind.bind, Except.bind, pure, Except.pure] at hbad
  | error e =>
    rw [h] at hbad
    simp only [Bind.bind, Except.bind] at hbad
    have he := get_error_is_keyError df p e h
    rw [he] at hbad
    exact PdErr.noConfusion ((Except.error.injEq _ _).mp hbad)

theorem wma_no_valueError (df : DFrame) (n : Nat) (p : String) (msg : String) :
    weighted_moving_average df n p ≠ Except.error (PdErr.valueError msg) := by
  intro hbad
  unfold weighted_moving_average at hbad
  cases h : df.get p with
  | ok s =>
    rw [h] at hbad
    simp [Bind.bind, Except.bind, pure, Except.pure] at hbad
  | error e =>
    rw [h] at hbad
    simp only [Bind.bind, Except.bind] at hbad
    have he := get_error_is_keyError df p e h
    rw [he] at hbad
    exact PdErr.noConfusion ((Except.error.injEq _ _).mp hbad)

theorem ema_never_options_error (df : DFrame) (n : Nat) (p : String) :
    exponential_moving_average df n p
      ≠ Except.error
          (PdErr.valueError "Only SMA, WMA and EMA are available.") := by
  intro hbad
  unfold exponential_moving_average at hbad
  cases h : df.get p with
  | ok s =>
    rw [h] at hbad
    simp only [Bind.bind, Except.bind] at hbad
    by_cases hn : n < 1
    · rw [if_pos hn] at hbad
      have h1 := (Except.error.injEq _ _).mp hbad
      have h2 := (PdErr.valueError.injEq _ _).mp h1
      exact absurd h2 (by decide)
    · rw [if_neg hn] at hbad
      simp [pure, Except.pure] at hbad
  | error e =>
    rw [h] at hbad
    simp only [Bind.bind, Except.bind] at hbad
    have he := get_error_is_keyError df p e h
    rw [he] at hbad
    exact PdErr.noConfusion ((Except.error.injEq _ _).mp hbad)

theorem bind_pair_no_valueError (r : Except PdErr PSeries) (k : PSeries)
    (msg : String) (hr : r ≠ Except.error (PdErr.valueError msg)) :
    (r >>= fun d => pure (k, d) : Except PdErr (PSeries × PSeries))
      ≠ Except.error (PdErr.valueError msg) := by
  intro hbad
  cases hre : r with
  | ok d =>
    rw [hre] at hbad
    simp [Bind.bind, Except.bind, pure, Except.pure] at hbad
  | error e =>
    rw [hre] at hbad
    simp only [Bind.bind, Except.bind] at hbad
    have : e = PdErr.valueError msg := (Except.error.injEq _ _).mp hbad
    exact hr (by rw [hre, this])

/-- C5. On a table holding the selected column, an unsupported
`%D`-smoothing name makes `stochastic_oscillator` fail with the
invalid-configuration `ValueError` whose message names the three valid
options (SMA, WMA, EMA), while each of the three supported names never
raises that error.  (A supported name can still surface a different
pandas error — `KeyError` on a non-`Close` column, or the `ewm` span
validation for a degenerate `n_d` — but never the options error.) -/
theorem stoch_dtype_validation (df : DFrame) (n_k n_d : Nat) (p dt : String)
    (s : PSeries) (hs : df.get p = Except.ok s) :
    (dt ≠ "sma" → dt ≠ "wma" → dt ≠ "ema" →
      stochastic_oscillator df n_k n_d p dt
        = Except.error (PdErr.valueError "Only SMA, WMA and EMA are available.")) ∧
    ((dt = "sma" ∨ dt = "wma" ∨ dt = "ema") →
      stochastic_oscillator df n_k n_d p dt
        ≠ Except.error
            (PdErr.valueError "Only SMA, WMA and EMA are available.")) := by
  constructor
  · intro h1 h2 h3
    unfold stochastic_oscillator
    rw [hs]
    simp only [Bind.bind, Except.bind, if_neg h1, if_neg h2, if_neg h3]
  · intro hdt
    unfold stochastic_oscillator
    rw [hs]
    simp only [Bind.bind, Except.bind]
    rcases hdt with h | h | h
    · rw [h]
      simp only [if_pos rfl]
      exact bind_pair_no_valueError _ _ _ (sma_no_valueError _ _ _ _)
    · rw [h]
      rw [if_neg (by decide), if_pos rfl]
      exact bind_pair_no_valueError _ _ _ (wma_no_valueError _ _ _ _)
    · rw [h]
      rw [if_neg (by decide), if_neg (by decide), if_pos rfl]
      exact bind_pair_no_valueError _ _ _ (ema_never_options_error _ _ _)

/-- C5 witness: on the 1..10 close-price table, the unsupported name
`"foo"` raises the `ValueError` naming SMA/WMA/EMA, and the supported
name `"sma"` does not raise it. -/
theorem stoch_dtype_validation_witness :
    stochastic_oscillator df10 2 2 "Close" "foo"
      = Except.error (PdErr.valueError "Only SMA, WMA and EMA are available.") ∧
    stochastic_oscillator df10 2 2 "Close" "sma"
      ≠ Except.error (PdErr.valueError "Only SMA, WMA and EMA are available.") := by
  constructor
  · exact (stoch_dtype_validation df10 2 2 "Close" "foo" _ rfl).1
      (by decide) (by decide) (by decide)
  · exact (stoch_dtype_validation df10 2 2 "Close" "sma" _ rfl).2 (Or.inl rfl)

/-- C10. With a supported smoothing method and any column name other than
`'Close'`, `stochastic_oscillator` fails with a `KeyError` on `'Close'`
while computing `%D`: the intermediate one-column `%K` frame is named
after the `prices` argument, but the SMA/WMA/EMA helpers it is handed to
select their default column `'Close'`. -/
theorem stoch_nonclose_prices_keyerror (df : DFrame) (n_k n_d : Nat)
    (p dt : String) (s : PSeries) (hs : df.get p = Except.ok s)
    (hp : p ≠ "Close") (hdt : dt = "sma" ∨ dt = "wma" ∨ dt = "ema") :
    stochastic_oscillator df n_k n_d p dt
      = Except.error (PdErr.keyError "Close") := by
  have hbeq : ("Close" == p) = false := beq_eq_false_iff_ne.mpr (Ne.symm hp)
  have hkdf : (DFrame.mk [(p, stochasticK s n_k)]).get "Close"
      = Except.error (PdErr.keyError "Close") := by
    unfold DFrame.get
    simp [List.lookup, hbeq]
  unfold stochastic_oscillator
  rw [hs]
  simp only [Bind.bind, Except.bind]
  rcases hdt with h | h | h
  · rw [h]
    simp only [if_pos rfl]
    unfold simple_moving_average
    rw [hkdf]
    rfl
  · rw [h]
    rw [if_neg (by decide), if_pos rfl]
    unfold weighted_moving_average
    rw [hkdf]
    rfl
  · rw [h]
    rw [if_neg (by decide), if_neg (by decide), if_pos rfl]
    unfold exponential_moving_average
    rw [hkdf]
    rfl

/-- A one-column table whose only column is `High`. -/
def dfHigh : DFrame := ⟨[("High", [some 1, some 2, some 3])]⟩

/-- C10 witness: selecting the `High` column with the default SMA
smoothing raises `KeyError('Close')`. -/
theorem stoch_nonclose_prices_keyerror_witness :
    stochastic_oscillator dfHigh 2 2 "High" "sma"
      = Except.error (PdErr.keyError "Close") :=
  stoch_nonclose_prices_keyerror dfHigh 2 2 "High" "sma" _ rfl
    (by decide) (Or.inl rfl)

/-! ### C4: MACD structure -/

theorem lt_length_of_getD_some {l : PSeries} {i : Nat} {v : ℚ}
    (h : l.getD i none = some v) : i < l.length := by
  by_contra hge
  rw [getD_eq_of_length_le l none i (le_of_not_lt hge)] at h
  cases h

/-- C4. `moving_average_convergence_divergence` returns the triple
`(macd, macd_signal, macd_difference)` in that order, where `macd` is the
elementwise difference of the fast and slow EMAs of the close column,
`macd_signal` is the EMA of `macd` over `n_signal`, and at every position
where both `macd` and `macd_signal` are defined, the difference series
holds exactly `macd_i - macd_signal_i`. -/
theorem macd_structure (df : DFrame) (nf ns nsig : Nat)
    (macd sig diffS : PSeries)
    (h : moving_average_convergence_divergence df nf ns nsig
      = Except.ok (macd, sig, diffS)) :
    ∃ ef es, exponential_moving_average df nf "Close" = Except.ok ef ∧
      exponential_moving_average df ns "Close" = Except.ok es ∧
      macd = (List.range ef.length).map (fun i =>
        zipOpt (fun a b => a - b) (ef.getD i none) (es.getD i none)) ∧
      sig = ewmMean (2 / ((nsig : ℚ) + 1)) nsig macd ∧
      ∀ i a b, macd.getD i none = some a → sig.getD i none = some b →
        diffS.getD i none = some (a - b) := by
  unfold moving_average_convergence_divergence at h
  cases hef : exponential_moving_average df nf "Close" with
  | error e => rw [hef] at h; simp [Bind.bind, Except.bind] at h
  | ok ef =>
    cases hes : exponential_moving_average df ns "Close" with
    | error e => rw [hef, hes] at h; simp [Bind.bind, Except.bind] at h
    | ok es =>
      rw [hef, hes] at h
      simp only [Bind.bind, Except.bind, pure, Except.pure, Except.ok.injEq,
        Prod.mk.injEq] at h
      obtain ⟨hm, hs2, hd⟩ := h
      refine ⟨ef, es, rfl, rfl, hm.symm, ?_, ?_⟩
      · rw [← hs2, ← hm]
      · intro i a b ha hb
        have hi : i < macd.length := lt_length_of_getD_some ha
        rw [← hd]
        rw [← hm] at ha hi
        rw [← hs2] at hb
        rw [getD_map_range _ _ _ _ (by simpa using hi), ha, hb]
        rfl

/-- A short close-price table for concrete MACD / RSI scenarios. -/
def prices3 : List ℚ := [1, 2, 3]

/-- A one-column price table holding `prices3` under `Close`. -/
def df3 : DFrame := ⟨[("Close", prices3.map some)]⟩

/-- The fast EMA (span 1) of `prices3`. -/
def emaFast3 : PSeries := ewmMean (2 / ((1 : ℚ) + 1)) 1 (prices3.map some)

/-- The slow EMA (span 2) of `prices3`. -/
def emaSlow3 : PSeries := ewmMean (2 / ((2 : ℚ) + 1)) 2 (prices3.map some)

/-- The MACD line on `prices3` with spans 1 and 2. -/
def macd3 : PSeries := (List.range emaFast3.length).map (fun i =>
  zipOpt (fun a b => a - b) (emaFast3.getD i none) (emaSlow3.getD i none))

/-- The MACD signal line on `prices3` with signal span 1. -/
def sig3 : PSeries := ewmMean (2 / ((1 : ℚ) + 1)) 1 macd3

/-- C4 witness: on `prices3` with spans (1, 2, 1), the returned triple is
`(macd3, sig3, difference)`, at index 2 the MACD line and signal both
hold `5/13`, and the difference series holds their exact difference. -/
theorem macd_structure_witness :
    moving_average_convergence_divergence df3 1 2 1
      = Except.ok (macd3, sig3, (List.range macd3.length).map (fun i =>
          zipOpt (fun a b => a - b) (macd3.getD i none) (sig3.getD i none))) ∧
    ((List.range macd3.length).map (fun i =>
        zipOpt (fun a b => a - b) (macd3.getD i none) (sig3.getD i none))).getD
      2 none = some (5 / 13 - 5 / 13) := by
  have hm : macd3.getD 2 none = some (5 / 13) := by
    norm_num [macd3, emaFast3, emaSlow3, ewmMean, prices3, List.range,
      List.range.loop, obsOf, List.getD, List.filterMap_cons,
      List.filterMap_nil, zipOpt]
  have hs : sig3.getD 2 none = some (5 / 13) := by
    norm_num [sig3, macd3, emaFast3, emaSlow3, ewmMean, prices3, List.range,
      List.range.loop, obsOf, List.getD, List.filterMap_cons,
      List.filterMap_nil, zipOpt]
  refine ⟨rfl, ?_⟩
  obtain ⟨ef, es, hef, hes, hmm, hss, hd⟩ :=
    macd_structure df3 1 2 1 macd3 sig3
      ((List.range macd3.length).map (fun i =>
        zipOpt (fun a b => a - b) (macd3.getD i none) (sig3.getD i none))) rfl
  exact hd 2 (5 / 13) (5 / 13) hm hs

/-! ### C9: RSI saturation when smoothed losses vanish -/

/-- C9. At every position where the smoothed losses of
`relative_strength_index` are zero while the smoothed gains are positive,
`RS` is the IEEE infinity and the returned RSI value is exactly 100 — no
error is raised. -/
theorem rsi_saturates_at_100 (df : DFrame) (n : Nat) (p : String)
    (s : PSeries) (out : List FVal) (i : Nat) (g : ℚ)
    (hs : df.get p = Except.ok s)
    (hout : relative_strength_index df n p = Except.ok out)
    (hdown : (rsiDowns s n).getD i none = some 0)
    (hup : (rsiUps s n).getD i none = some g)
    (hg : 0 < g) (hi : i < s.length) :
    out.getD i FVal.nan = FVal.fin 100 := by
  have hout2 : out = (List.range s.length).map (rsiAt s n) := by
    unfold relative_strength_index at hout
    rw [hs] at hout
    simp only [Bind.bind, Except.bind, pure, Except.pure,
      Except.ok.injEq] at hout
    exact hout.symm
  subst hout2
  rw [getD_map_range _ _ _ _ hi]
  unfold rsiAt
  rw [hup, hdown]
  simp only [toExt]
  simp [FVal.div, FVal.add, FVal.sub, FVal.neg, hg.ne', hg]

/-- The RSI output on `prices3` with lookback 2. -/
def rsi3 : List FVal := (List.range (prices3.map some).length).map
  (rsiAt (prices3.map some) 2)

/-- C9 witness: on the strictly increasing series `prices3`, the smoothed
losses at index 2 are zero, the smoothed gains are 1, and the RSI
saturates at exactly 100. -/
theorem rsi_saturates_witness :
    relative_strength_index df3 2 "Close" = Except.ok rsi3 ∧
    rsi3.getD 2 FVal.nan = FVal.fin 100 := by
  have hdown : (rsiDowns (prices3.map some) 2).getD 2 none = some 0 := by
    norm_num [rsiDowns, ewmMean, diffOpt, clipLo0, zipOpt, prices3,
      List.range, List.range.loop, obsOf, List.getD, List.filterMap_cons,
      List.filterMap_nil, Option.map]
  have hup : (rsiUps (prices3.map some) 2).getD 2 none = some 1 := by
    norm_num [rsiUps, ewmMean, diffOpt, clipLo0, zipOpt, prices3,
      List.range, List.range.loop, obsOf, List.getD, List.filterMap_cons,
      List.filterMap_nil, Option.map]
  exact ⟨rfl, rsi_saturates_at_100 df3 2 "Close" (prices3.map some) rsi3 2 1
    rfl rfl hdown hup (by norm_num) (by norm_num [prices3])⟩

/-! ### C7: the stochastic %K lies in [0, 100] -/

theorem seed_le_foldl_max (t : List ℚ) : ∀ b, b ≤ t.foldl max b := by
  induction t with
  | nil => intro b; simp
  | cons c t ih => intro b; exact le_trans (le_max_left b c) (ih (max b c))

theorem mem_le_foldl_max (t : List ℚ) : ∀ b a, a ∈ t → a ≤ t.foldl max b := by
  induction t with
  | nil => intro b a h; cases h
  | cons c t ih =>
    intro b a h
    rcases List.mem_cons.mp h with rfl | h2
    · exact le_trans (le_max_right b a) (seed_le_foldl_max t (max b a))
    · exact ih (max b c) a h2

theorem listMax_is_ub (l : List ℚ) (m a : ℚ) (hm : listMax l = some m)
    (ha : a ∈ l) : a ≤ m := by
  cases l with
  | nil => cases hm
  | cons b t =>
    simp only [listMax, Option.some.injEq] at hm
    subst hm
    rcases List.mem_cons.mp ha with rfl | h2
    · exact seed_le_foldl_max t a
    · exact mem_le_foldl_max t b a h2

theorem foldl_min_le_seed (t : List ℚ) : ∀ b, t.foldl min b ≤ b := by
  induction t with
  | nil => intro b; simp
  | cons c t ih => intro b; exact le_trans (ih (min b c)) (min_le_left b c)

theorem foldl_min_le_mem (t : List ℚ) : ∀ b a, a ∈ t → t.foldl min b ≤ a := by
  induction t with
  | nil => intro b a h; cases h
  | cons c t ih =>
    intro b a h
    rcases List.mem_cons.mp h with rfl | h2
    · exact le_trans (foldl_min_le_seed t (min b a)) (min_le_right b a)
    · exact ih (min b c) a h2

theorem listMin_is_lb (l : List ℚ) (m a : ℚ) (hm : listMin l = some m)
    (ha : a ∈ l) : m ≤ a := by
  cases l with
  | nil => cases hm
  | cons b t =>
    simp only [listMin, Option.some.injEq] at hm
    subst hm
    rcases List.mem_cons.mp ha with rfl | h2
    · exact foldl_min_le_seed t a
    · exact foldl_min_le_mem t b a h2

theorem getElem?_of_getD (l : PSeries) (i : Nat) (x : ℚ)
    (h : l.getD i none = some x) : l[i]? = some (some x) := by
  rw [List.getD_eq_getElem?_getD] at h
  cases hE : l[i]? with
  | none => rw [hE] at h; cases h
  | some v => rw [hE] at h; simp only [Option.getD_some] at h; rw [h]

theorem self_mem_obs_window (n i : Nat) (xs : PSeries) (x : ℚ)
    (hx : xs.getD i none = some x) (hn : 0 < n) (_hi : i < xs.length) :
    x ∈ obsOf (windowAt n xs i) := by
  have hmem : some x ∈ windowAt n xs i := by
    apply List.getElem?_mem (n := i - (i + 1 - n))
    unfold windowAt
    rw [List.getElem?_drop]
    have harith : i + 1 - n + (i - (i + 1 - n)) = i := by omega
    rw [harith, List.getElem?_take, if_pos (by omega)]
    exact getElem?_of_getD xs i x hx
  exact List.mem_filterMap.mpr ⟨some x, hmem, rfl⟩

theorem windowAt_zero_nil (s : PSeries) (i : Nat) : windowAt 0 s i = [] := by
  unfold windowAt
  apply List.drop_eq_nil_of_le
  simp

theorem rollingMax_at_ge (s : PSeries) (n i : Nat) (x hi2 : ℚ)
    (hx : s.getD i none = some x)
    (hh : (rollingMax n n s).getD i none = some hi2) : x ≤ hi2 := by
  have hi : i < s.length := lt_length_of_getD_some hx
  unfold rollingMax rollingAgg at hh
  rw [getD_map_range _ _ _ _ hi] at hh
  by_cases hc : n ≤ (obsOf (windowAt n s i)).length ∧ 0 < (obsOf (windowAt n s i)).length
  · rw [if_pos hc] at hh
    have hn : 0 < n := by
      by_contra h0
      have hz : n = 0 := by omega
      rw [hz, windowAt_zero_nil] at hc
      simp [obsOf] at hc
    exact listMax_is_ub _ _ _ hh (self_mem_obs_window n i s x hx hn hi)
  · rw [if_neg hc] at hh; cases hh

theorem rollingMin_at_le (s : PSeries) (n i : Nat) (x lo : ℚ)
    (hx : s.getD i none = some x)
    (hl : (rollingMin n n s).getD i none = some lo) : lo ≤ x := by
  have hi : i < s.length := lt_length_of_getD_some hx
  unfold rollingMin rollingAgg at hl
  rw [getD_map_range _ _ _ _ hi] at hl
  by_cases hc : n ≤ (obsOf (windowAt n s i)).length ∧ 0 < (obsOf (windowAt n s i)).length
  · rw [if_pos hc] at hl
    have hn : 0 < n := by
      by_contra h0
      have hz : n = 0 := by omega
      rw [hz, windowAt_zero_nil] at hc
      simp [obsOf] at hc
    exact listMin_is_lb _ _ _ hl (self_mem_obs_window n i s x hx hn hi)
  · rw [if_neg hc] at hl; cases hl

theorem bind_pair_ok {r : Except PdErr PSeries} {k0 k d : PSeries}
    (h : (r >>= fun d => pure (k0, d) : Except PdErr (PSeries × PSeries))
      = Except.ok (k, d)) :
    k = k0 ∧ r = Except.ok d := by
  cases hr : r with
  | ok d2 =>
    rw [hr] at h
    simp only [Bind.bind, Except.bind, pure, Except.pure, Except.ok.injEq,
      Prod.mk.injEq] at h
    exact ⟨h.1.symm, by rw [h.2]⟩
  | error e =>
    rw [hr] at h
    simp [Bind.bind, Except.bind] at h

theorem stoch_ok_components (df : DFrame) (n_k n_d : Nat) (p dt : String)
    (s k d : PSeries) (hs : df.get p = Except.ok s)
    (h : stochastic_oscillator df n_k n_d p dt = Except.ok (k, d)) :
    k = stochasticK s n_k := by
  unfold stochastic_oscillator at h
  rw [hs] at h
  simp only [Bind.bind, Except.bind] at h
  exact (bind_pair_ok h).1

theorem stochasticK_in_range (s : PSeries) (n_k i : Nat) (v : ℚ)
    (hv : (stochasticK s n_k).getD i none = some v) : 0 ≤ v ∧ v ≤ 100 := by
  have hi : i < s.length := by
    have hlt := lt_length_of_getD_some hv
    simpa [stochasticK] using hlt
  unfold stochasticK at hv
  rw [getD_map_range _ _ _ _ hi] at hv
  cases hx : s.getD i none with
  | none => rw [hx] at hv; simp [zipOpt, divOpt] at hv
  | some x =>
    cases hll : (rollingMin n_k n_k s).getD i none with
    | none => rw [hx, hll] at hv; simp [zipOpt, divOpt] at hv
    | some lo =>
      cases hhh : (rollingMax n_k n_k s).getD i none with
      | none => rw [hx, hll, hhh] at hv; simp [zipOpt, divOpt] at hv
      | some hi2 =>
        rw [hx, hll, hhh] at hv
        simp only [zipOpt] at hv
        by_cases hz : hi2 - lo = 0
        · simp [divOpt, hz] at hv
        · simp only [divOpt, if_neg hz, Option.map_some] at hv
          have hv2 : (x - lo) / (hi2 - lo) * 100 = v := by
            exact (Option.some.injEq _ _).mp hv
          have hxle : x ≤ hi2 := rollingMax_at_ge s n_k i x hi2 hx hhh
          have hlox : lo ≤ x := rollingMin_at_le s n_k i x lo hx hll
          have hpos : 0 < hi2 - lo := by
            rcases lt_or_eq_of_le (by linarith : lo ≤ hi2) with hlt | heq
            · linarith
            · exact absurd (by linarith) hz
          have hq0 : 0 ≤ (x - lo) / (hi2 - lo) :=
            div_nonneg (by linarith) (by linarith)
          have hq1 : (x - lo) / (hi2 - lo) ≤ 1 :=
            (div_le_one hpos).mpr (by linarith)
          constructor
          · rw [← hv2]; positivity
          · rw [← hv2]; nlinarith

/-- C7. At every position where the `%K` series returned by
`stochastic_oscillator` holds a numeric value — equivalently, where the
trailing `n_k`-window rolling range is strictly positive, since a zero
range yields the non-numeric sentinel — that value lies in `[0, 100]`. -/
theorem stoch_k_in_unit_range (df : DFrame) (n_k n_d : Nat) (p dt : String)
    (s k d : PSeries) (i : Nat) (v : ℚ)
    (hs : df.get p = Except.ok s)
    (h : stochastic_oscillator df n_k n_d p dt = Except.ok (k, d))
    (hv : k.getD i none = some v) :
    0 ≤ v ∧ v ≤ 100 := by
  have hk := stoch_ok_components df n_k n_d p dt s k d hs h
  subst hk
  exact stochasticK_in_range s n_k i v hv

/-- The `%K` series on `prices3` with a 2-period window. -/
def k3s : PSeries := stochasticK (prices3.map some) 2

/-- The `%D` series on `prices3`: 1-period SMA of `%K`. -/
def d3s : PSeries := rollingMean 1 1 k3s

/-- C7 witness: on `prices3` with `n_k = 2` the oscillator succeeds, the
`%K` value at index 1 is 100, and it lies in `[0, 100]`. -/
theorem stoch_k_in_unit_range_witness :
    stochastic_oscillator df3 2 1 "Close" "sma" = Except.ok (k3s, d3s) ∧
    k3s.getD 1 none = some 100 ∧ ((0 : ℚ) ≤ 100 ∧ (100 : ℚ) ≤ 100) := by
  have hv : k3s.getD 1 none = some 100 := by
    norm_num [k3s, stochasticK, rollingMax, rollingMin, rollingAgg, windowAt,
      obsOf, listMax, listMin, zipOpt, divOpt, prices3, List.range,
      List.range.loop, List.getD, List.filterMap_cons, List.filterMap_nil]
  exact ⟨rfl, hv, stoch_k_in_unit_range df3 2 1 "Close" "sma"
    (prices3.map some) k3s d3s 1 100 rfl rfl hv⟩

/-! ### C8: Bollinger band ordering -/

theorem length_rollingStd (n minp : Nat) (xs : PSeries) :
    (rollingStd n minp xs).length = xs.length := by
  simp [rollingStd]

theorem rollingStd_nonneg (n minp : Nat) (xs : PSeries) (i : Nat) (sd : ℝ)
    (h : (rollingStd n minp xs).getD i none = some sd) : 0 ≤ sd := by
  have hi : i < xs.length := by
    by_contra hge
    rw [getD_eq_of_length_le _ _ i
      (by rw [length_rollingStd]; omega)] at h
    cases h
  unfold rollingStd at h
  rw [getD_map_range _ _ _ _ hi] at h
  by_cases hc : minp ≤ (obsOf (windowAt n xs i)).length ∧
      2 ≤ (obsOf (windowAt n xs i)).length
  · rw [if_pos hc] at h
    have : Real.sqrt (((sampleVar (obsOf (windowAt n xs i)) : ℚ) : ℝ)) = sd :=
      (Option.some.injEq _ _).mp h
    rw [← this]
    exact Real.sqrt_nonneg _
  · rw [if_neg hc] at h; cases h

/-- C8. `bollinger_bands` returns `(lower, upper)` in that order, where at
every defined position `lower_i = center_i - m * spread_i` and
`upper_i = center_i + m * spread_i` — `center` the rolling mean of the
typical price and `spread` its rolling sample standard deviation — and
for non-negative `m` (the spread, a square root, is always non-negative)
`lower_i ≤ center_i ≤ upper_i` holds at every defined position. -/
theorem bollinger_spec (df : DFrame) (n : Nat) (m : ℚ)
    (lower upper : List (Option ℝ)) (hm : 0 ≤ m)
    (h : bollinger_bands df n m = Except.ok (lower, upper)) :
    ∃ c sp, bollCenter df n = Except.ok c ∧ bollSpread df n = Except.ok sp ∧
      (∀ i c0 s0, c.getD i none = some c0 → sp.getD i none = some s0 →
        lower.getD i none = some ((c0 : ℝ) - (m : ℝ) * s0) ∧
        upper.getD i none = some ((c0 : ℝ) + (m : ℝ) * s0)) ∧
      (∀ i c0 lo up, c.getD i none = some c0 →
        lower.getD i none = some lo → upper.getD i none = some up →
        lo ≤ (c0 : ℝ) ∧ (c0 : ℝ) ≤ up) := by
  unfold bollinger_bands at h
  cases hH : df.get "High" with
  | error e => rw [hH] at h; simp [Bind.bind, Except.bind] at h
  | ok H =>
    cases hL : df.get "Low" with
    | error e => rw [hH, hL] at h; simp [Bind.bind, Except.bind] at h
    | ok L =>
      cases hC : df.get "Close" with
      | error e => rw [hH, hL, hC] at h; simp [Bind.bind, Except.bind] at h
      | ok C =>
        rw [hH, hL, hC] at h
        simp only [Bind.bind, Except.bind, pure, Except.pure, Except.ok.injEq,
          Prod.mk.injEq] at h
        obtain ⟨hlow, hup⟩ := h
        refine ⟨rollingMean n n (typicalPrice H L C),
          rollingStd n n (typicalPrice H L C), ?_, ?_, ?_, ?_⟩
        · unfold bollCenter; rw [hH, hL, hC]; rfl
        · unfold bollSpread; rw [hH, hL, hC]; rfl
        · intro i c0 s0 hc0 hs0
          have hi : i < (typicalPrice H L C).length := by
            have hlt := lt_length_of_getD_some hc0
            rw [rollingMean, length_rollingAgg] at hlt
            exact hlt
          constructor
          · rw [← hlow, getD_map_range _ _ _ _ hi, hc0, hs0]
          · rw [← hup, getD_map_range _ _ _ _ hi, hc0, hs0]
        · intro i c0 lo up hc0 hlo hup2
          have hi : i < (typicalPrice H L C).length := by
            have hlt := lt_length_of_getD_some hc0
            rw [rollingMean, length_rollingAgg] at hlt
            exact hlt
          cases hsd : (rollingStd n n (typicalPrice H L C)).getD i none with
          | none =>
            rw [← hlow, getD_map_range _ _ _ _ hi, hc0, hsd] at hlo
            cases hlo
          | some sd =>
            rw [← hlow, getD_map_range _ _ _ _ hi, hc0, hsd] at hlo
            rw [← hup, getD_map_range _ _ _ _ hi, hc0, hsd] at hup2
            have hlo2 : lo = (c0 : ℝ) - (m : ℝ) * sd :=
              ((Option.some.injEq _ _).mp hlo).symm
            have hup3 : up = (c0 : ℝ) + (m : ℝ) * sd :=
              ((Option.some.injEq _ _).mp hup2).symm
            have hsd0 : 0 ≤ sd := rollingStd_nonneg n n _ i sd hsd
            have hm2 : 0 ≤ (m : ℝ) := by exact_mod_cast hm
            constructor
            · rw [hlo2]; nlinarith
            · rw [hup3]; nlinarith

/-- A constant price column of five 5s. -/
def col5 : PSeries := [some 5, some 5, some 5, some 5, some 5]

/-- A price table whose High, Low and Close are all `col5`. -/
def df5 : DFrame := ⟨[("High", col5), ("Low", col5), ("Close", col5)]⟩

/-- The typical price of `df5`. -/
def tp5 : PSeries := typicalPrice col5 col5 col5

/-- The Bollinger center on `df5` with window 3. -/
def c5 : PSeries := rollingMean 3 3 tp5

/-- The Bollinger spread on `df5` with window 3. -/
noncomputable def sp5 : List (Option ℝ) := rollingStd 3 3 tp5

/-- The lower Bollinger band on `df5` with window 3 and multiplier 2. -/
noncomputable def lower5 : List (Option ℝ) := (List.range tp5.length).map (fun i =>
  match c5.getD i none, sp5.getD i none with
  | some c, some sd => some ((c : ℝ) - ((2 : ℚ) : ℝ) * sd)
  | _, _ => none)

/-- The upper Bollinger band on `df5` with window 3 and multiplier 2. -/
noncomputable def upper5 : List (Option ℝ) := (List.range tp5.length).map (fun i =>
  match c5.getD i none, sp5.getD i none with
  | some c, some sd => some ((c : ℝ) + ((2 : ℚ) : ℝ) * sd)
  | _, _ => none)

/-- C8 witness: on the constant table `df5` with `n = 3`, `m = 2`, the
bands exist, at index 2 both bands and the center are 5, and
`lower ≤ center ≤ upper` holds there by the main theorem. -/
theorem bollinger_spec_witness :
    bollinger_bands df5 3 2 = Except.ok (lower5, upper5) ∧
    c5.getD 2 none = some 5 ∧ lower5.getD 2 none = some 5 ∧
    upper5.getD 2 none = some 5 ∧
    ((5 : ℝ) ≤ (((5 : ℚ) : ℝ)) ∧ (((5 : ℚ) : ℝ)) ≤ 5) := by
  have hc0 : c5.getD 2 none = some 5 := by
    norm_num [c5, tp5, typicalPrice, col5, rollingMean, rollingAgg, windowAt,
      obsOf, meanQ, zipOpt, Option.map, List.range, List.range.loop,
      List.getD, List.filterMap_cons, List.filterMap_nil]
  have hsd : sp5.getD 2 none = some 0 := by
    norm_num [sp5, tp5, typicalPrice, col5, rollingStd, windowAt, obsOf,
      sampleVar, meanQ, zipOpt, Option.map, List.range, List.range.loop,
      List.getD, List.filterMap_cons, List.filterMap_nil, Real.sqrt_zero]
  have hlo : lower5.getD 2 none = some 5 := by
    rw [lower5, getD_map_range _ _ _ 2 (by norm_num [tp5, typicalPrice, col5]),
      hc0, hsd]
    norm_num
  have hup : upper5.getD 2 none = some 5 := by
    rw [upper5, getD_map_range _ _ _ 2 (by norm_num [tp5, typicalPrice, col5]),
      hc0, hsd]
    norm_num
  obtain ⟨c, sp, hc, hs, hpt, hineq⟩ :=
    bollinger_spec df5 3 2 lower5 upper5 (by norm_num) rfl
  have hcc : c = c5 := by
    have h2 : bollCenter df5 3 = Except.ok c5 := rfl
    rw [hc] at h2
    exact (Except.ok.injEq _ _).mp h2
  refine ⟨rfl, hc0, hlo, hup, ?_⟩
  have := hineq 2 5 5 5 (by rw [hcc]; exact hc0) hlo hup
  exact this

/-! ### C3: every output series has the input's length -/

theorem get_unique {df : DFrame} {p : String} {s s2 : PSeries}
    (h1 : df.get p = Except.ok s) (h2 : df.get p = Except.ok s2) : s2 = s := by
  rw [h1] at h2
  exact ((Except.ok.injEq _ _).mp h2).symm

theorem sma_ok_shape (df : DFrame) (n : Nat) (p : String) (out : PSeries)
    (h : simple_moving_average df n p = Except.ok out) :
    ∃ s, df.get p = Except.ok s ∧ out = rollingMean n n s := by
  unfold simple_moving_average at h
  cases hg : df.get p with
  | error e => rw [hg] at h; simp [Bind.bind, Except.bind] at h
  | ok s =>
    rw [hg] at h
    simp only [Bind.bind, Except.bind, pure, Except.pure, Except.ok.injEq] at h
    exact ⟨s, rfl, h.symm⟩

theorem wma_ok_shape (df : DFrame) (n : Nat) (p : String) (out : PSeries)
    (h : weighted_moving_average df n p = Except.ok out) :
    ∃ s, df.get p = Except.ok s ∧
      out = rollingAgg (fun o => some (revCumsumTrick n o)) n n s := by
  unfold weighted_moving_average at h
  cases hg : df.get p with
  | error e => rw [hg] at h; simp [Bind.bind, Except.bind] at h
  | ok s =>
    rw [hg] at h
    simp only [Bind.bind, Except.bind, pure, Except.pure, Except.ok.injEq] at h
    exact ⟨s, rfl, h.symm⟩

theorem ema_ok_shape (df : DFrame) (n : Nat) (p : String) (out : PSeries)
    (h : exponential_moving_average df n p = Except.ok out) :
    ∃ s, df.get p = Except.ok s ∧ out = ewmMean (2 / ((n : ℚ) + 1)) n s := by
  unfold exponential_moving_average at h
  cases hg : df.get p with
  | error e => rw [hg] at h; simp [Bind.bind, Except.bind] at h
  | ok s =>
    rw [hg] at h
    simp only [Bind.bind, Except.bind] at h
    by_cases hn : n < 1
    · rw [if_pos hn] at h; cases h
    · rw [if_neg hn] at h
      simp only [pure, Except.pure, Except.ok.injEq] at h
      exact ⟨s, rfl, h.symm⟩

theorem get_singleton (p c : String) (k s2 : PSeries)
    (h : (DFrame.mk [(p, k)]).get c = Except.ok s2) : s2 = k := by
  unfold DFrame.get at h
  by_cases hb : (c == p) = true
  · simp only [List.lookup, hb] at h
    exact ((Except.ok.injEq _ _).mp h).symm
  · simp only [List.lookup, Bool.not_eq_true] at h
    rw [Bool.not_eq_true] at hb
    rw [hb] at h
    simp [List.lookup] at h

theorem branch_ok_length (n_d : Nat) (dt p : String) (d k : PSeries)
    (h : (if dt = "sma"
            then simple_moving_average ⟨[(p, k)]⟩ n_d "Close"
          else if dt = "wma"
            then weighted_moving_average ⟨[(p, k)]⟩ n_d "Close"
          else if dt = "ema"
            then exponential_moving_average ⟨[(p, k)]⟩ n_d "Close"
          else Except.error
            (PdErr.valueError "Only SMA, WMA and EMA are available."))
        = Except.ok d) :
    d.length = k.length := by
  by_cases h1 : dt = "sma"
  · rw [if_pos h1] at h
    obtain ⟨s2, hg, hout⟩ := sma_ok_shape _ _ _ _ h
    rw [hout, rollingMean, length_rollingAgg, get_singleton p "Close" k s2 hg]
  · rw [if_neg h1] at h
    by_cases h2 : dt = "wma"
    · rw [if_pos h2] at h
      obtain ⟨s2, hg, hout⟩ := wma_ok_shape _ _ _ _ h
      rw [hout, length_rollingAgg, get_singleton p "Close" k s2 hg]
    · rw [if_neg h2] at h
      by_cases h3 : dt = "ema"
      · rw [if_pos h3] at h
        obtain ⟨s2, hg, hout⟩ := ema_ok_shape _ _ _ _ h
        rw [hout, length_ewmMean, get_singleton p "Close" k s2 hg]
      · rw [if_neg h3] at h
        cases h

theorem boll_ok_lengths (df : DFrame) (n : Nat) (m : ℚ)
    (lower upper : List (Option ℝ)) (H : PSeries)
    (hH : df.get "High" = Except.ok H)
    (h : bollinger_bands df n m = Except.ok (lower, upper)) :
    lower.length = H.length ∧ upper.length = H.length := by
  unfold bollinger_bands at h
  rw [hH] at h
  cases hL : df.get "Low" with
  | error e => rw [hL] at h; simp [Bind.bind, Except.bind] at h
  | ok L =>
    cases hC : df.get "Close" with
    | error e => rw [hL, hC] at h; simp [Bind.bind, Except.bind] at h
    | ok C =>
      rw [hL, hC] at h
      simp only [Bind.bind, Except.bind, pure, Except.pure, Except.ok.injEq,
        Prod.mk.injEq] at h
      obtain ⟨hlow, hup⟩ := h
      constructor
      · rw [← hlow]; simp [typicalPrice]
      · rw [← hup]; simp [typicalPrice]

theorem macd_ok_lengths (df : DFrame) (nf ns nsig : Nat)
    (macd sig diffS C : PSeries) (hC : df.get "Close" = Except.ok C)
    (h : moving_average_convergence_divergence df nf ns nsig
      = Except.ok (macd, sig, diffS)) :
    macd.length = C.length ∧ sig.length = C.length ∧
      diffS.length = C.length := by
  unfold moving_average_convergence_divergence at h
  cases hef : exponential_moving_average df nf "Close" with
  | error e => rw [hef] at h; simp [Bind.bind, Except.bind] at h
  | ok ef =>
    cases hes : exponential_moving_average df ns "Close" with
    | error e => rw [hef, hes] at h; simp [Bind.bind, Except.bind] at h
    | ok es =>
      rw [hef, hes] at h
      simp only [Bind.bind, Except.bind, pure, Except.pure, Except.ok.injEq,
        Prod.mk.injEq] at h
      obtain ⟨hm, hs2, hd⟩ := h
      rw [hm] at hs2 hd
      obtain ⟨s1, hg1, hef2⟩ := ema_ok_shape df nf "Close" ef hef
      have hs1C : s1 = C := get_unique hC hg1
      have heflen : ef.length = C.length := by
        rw [hef2, length_ewmMean, hs1C]
      have hmlen : macd.length = C.length := by
        rw [← hm]; simp [heflen]
      refine ⟨hmlen, ?_, ?_⟩
      · rw [← hs2, length_ewmMean, hmlen]
      · rw [← hd]; simp [hmlen]

/-- C3. Every indicator output — SMA, WMA, EMA, RSI, the stochastic `%K`
and `%D`, both Bollinger bands, and all three MACD series — has exactly
the same length (hence the same positional index) as its input column;
no resampling or reindexing occurs. -/
theorem outputs_preserve_length :
    (∀ df n p s out, df.get p = Except.ok s →
        simple_moving_average df n p = Except.ok out →
        out.length = s.length) ∧
    (∀ df n p s out, df.get p = Except.ok s →
        weighted_moving_average df n p = Except.ok out →
        out.length = s.length) ∧
    (∀ df n p s out, df.get p = Except.ok s →
        exponential_moving_average df n p = Except.ok out →
        out.length = s.length) ∧
    (∀ df n p s out, df.get p = Except.ok s →
        relative_strength_index df n p = Except.ok out →
        out.length = s.length) ∧
    (∀ df n_k n_d p dt s k d, df.get p = Except.ok s →
        stochastic_oscillator df n_k n_d p dt = Except.ok (k, d) →
        k.length = s.length ∧ d.length = s.length) ∧
    (∀ df n m H lower upper, df.get "High" = Except.ok H →
        bollinger_bands df n m = Except.ok (lower, upper) →
        lower.length = H.length ∧ upper.length = H.length) ∧
    (∀ df nf ns nsig C macd sig diffS, df.get "Close" = Except.ok C →
        moving_average_convergence_divergence df nf ns nsig
          = Except.ok (macd, sig, diffS) →
        macd.length = C.length ∧ sig.length = C.length ∧
          diffS.length = C.length) := by
  refine ⟨?_, ?_, ?_, ?_, ?_, ?_, ?_⟩
  · intro df n p s out hg h
    obtain ⟨s2, hg2, hout⟩ := sma_ok_shape df n p out h
    rw [hout, rollingMean, length_rollingAgg, get_unique hg hg2]
  · intro df n p s out hg h
    obtain ⟨s2, hg2, hout⟩ := wma_ok_shape df n p out h
    rw [hout, length_rollingAgg, get_unique hg hg2]
  · intro df n p s out hg h
    obtain ⟨s2, hg2, hout⟩ := ema_ok_shape df n p out h
    rw [hout, length_ewmMean, get_unique hg hg2]
  · intro df n p s out hg h
    unfold relative_strength_index at h
    rw [hg] at h
    simp only [Bind.bind, Except.bind, pure, Except.pure,
      Except.ok.injEq] at h
    rw [← h]
    simp
  · intro df n_k n_d p dt s k d hg h
    unfold stochastic_oscillator at h
    rw [hg] at h
    simp only [Bind.bind, Except.bind] at h
    obtain ⟨hk, hr⟩ := bind_pair_ok h
    have hklen : (stochasticK s n_k).length = s.length := by
      simp [stochasticK]
    constructor
    · rw [hk, hklen]
    · rw [branch_ok_length n_d dt p d (stochasticK s n_k) hr, hklen]
  · intro df n m H lower upper hH h
    exact boll_ok_lengths df n m lower upper H hH h
  · intro df nf ns nsig C macd sig diffS hC h
    exact macd_ok_lengths df nf ns nsig macd sig diffS C hC h

/-- C3 witness: concrete length preservation — the SMA output on the
ten-element close column has ten entries, and the stochastic `%K`/`%D`
on the three-element table have three. -/
theorem outputs_preserve_length_witness :
    simple_moving_average df10 3 "Close" = Except.ok sma10 ∧
    sma10.length = (prices10.map some).length ∧
    stochastic_oscillator df3 2 1 "Close" "sma" = Except.ok (k3s, d3s) ∧
    k3s.length = (prices3.map some).length ∧
    d3s.length = (prices3.map some).length := by
  have h1 := outputs_preserve_length.1 df10 3 "Close" (prices10.map some)
    sma10 rfl rfl
  have h5 := (outputs_preserve_length.2.2.2.2.1) df3 2 1 "Close" "sma"
    (prices3.map some) k3s d3s rfl rfl
  exact ⟨rfl, h1, rfl, h5.1, h5.2⟩
